import Mathlib

/-!
Verification of the xc-fetch tool (tools/xc-fetch/src/main.rs).

The tool is shallowly embedded: serde_json values become the `Json`
inductive below (integer numbers suffice for every field this program
touches), the pure string helpers are translated function by function,
and the effectful tail of `main` (everything after the response body has
been obtained and parsed) becomes the pure function `run`, which records
the sequence of file writes it performs together with either an error
(process exit) or the data of a successful invocation.
-/

/-- Shallow embedding of a serde_json Value.  The program only ever
constructs and inspects integer numbers, so `num` carries an `Int`.
Objects are association lists in insertion order. -/
inductive Json where
  | null : Json
  | bool : Bool → Json
  | num : Int → Json
  | str : String → Json
  | arr : List Json → Json
  | obj : List (String × Json) → Json

instance : Inhabited Json := ⟨Json.null⟩

/-- Value of the first field with the given key, `null` when missing
(serde_json `Value::index` semantics on objects). -/
def findVal : List (String × Json) → String → Json
  | [], _ => Json.null
  | (k, v) :: rest, key => if k == key then v else findVal rest key

/-- `index["key"]` in Rust: `null` for a missing key or a non-object. -/
def Json.get : Json → String → Json
  | .obj fs, key => findVal fs key
  | _, _ => Json.null

def findValOpt : List (String × Json) → String → Option Json
  | [], _ => none
  | (k, v) :: rest, key => if k == key then some v else findValOpt rest key

/-- `value.get("key")` in Rust: `Some` exactly when the key is present. -/
def Json.getOpt : Json → String → Option Json
  | .obj fs, key => findValOpt fs key
  | _, _ => none

/-- `Value::as_str`. -/
def Json.asStr : Json → Option String
  | .str s => some s
  | _ => none

/-- `Value::as_array`. -/
def Json.asArr : Json → Option (List Json)
  | .arr l => some l
  | _ => none

/-- `Value::as_u64`: the number when it is a non-negative integer below 2^64. -/
def Json.asU64 : Json → Option Nat
  | .num v => if 0 ≤ v ∧ v < 2 ^ 64 then some v.toNat else none
  | _ => none

/-- Replace the value stored under a key of an object (in place, as the
Rust code mutates the entry of the map); other keys are untouched. -/
def setFields (k : String) (v : Json) : List (String × Json) → List (String × Json)
  | [] => []
  | (k₀, v₀) :: rest =>
    if k₀ == k then (k₀, v) :: setFields k v rest else (k₀, v₀) :: setFields k v rest

def Json.setKey : Json → String → Json → Json
  | .obj fs, k, v => .obj (setFields k v fs)
  | j, _, _ => j

/-! ### Character and string helpers mirroring the Rust std functions -/

/-- ASCII decimal digit, the only digits `u64::from_str` accepts. -/
def isAsciiDigit (c : Char) : Bool := 48 ≤ c.toNat && c.toNat ≤ 57

/-- The Unicode White_Space property used by Rust `str::trim`. -/
def rustIsWs (c : Char) : Bool :=
  (c.toNat == 0x9) || (c.toNat == 0xA) || (c.toNat == 0xB) || (c.toNat == 0xC) ||
  (c.toNat == 0xD) || (c.toNat == 0x20) || (c.toNat == 0x85) || (c.toNat == 0xA0) ||
  (c.toNat == 0x1680) || (c.toNat == 0x2000) || (c.toNat == 0x2001) || (c.toNat == 0x2002) ||
  (c.toNat == 0x2003) || (c.toNat == 0x2004) || (c.toNat == 0x2005) || (c.toNat == 0x2006) ||
  (c.toNat == 0x2007) || (c.toNat == 0x2008) || (c.toNat == 0x2009) || (c.toNat == 0x200A) ||
  (c.toNat == 0x2028) || (c.toNat == 0x2029) || (c.toNat == 0x202F) || (c.toNat == 0x205F) ||
  (c.toNat == 0x3000)

/-- `str::trim`. -/
def rustTrim (s : String) : String :=
  String.mk (((s.data.dropWhile rustIsWs).reverse.dropWhile rustIsWs).reverse)

/-- The optional leading plus sign accepted by `u64::from_str`. -/
def stripPlus : List Char → List Char
  | [] => []
  | c :: rest => if c == '+' then rest else c :: rest

/-- Numeric value of a list of ASCII digits. -/
def digitsVal (l : List Char) : Nat := l.foldl (fun acc c => acc * 10 + (c.toNat - 48)) 0

/-- `u64::from_str`: optional leading plus sign, then one or more ASCII
digits; errors when empty, on any other character, and on overflow past
`u64::MAX`. -/
def parseU64Chars (cs : List Char) : Option Nat :=
  let ds := stripPlus cs
  if ds.isEmpty then none
  else if ds.all isAsciiDigit then
    if digitsVal ds < 2 ^ 64 then some (digitsVal ds) else none
  else none

def parseU64 (s : String) : Option Nat := parseU64Chars s.data

/-- `str::strip_prefix` over char lists. -/
def stripPfxChars : List Char → List Char → Option (List Char)
  | [], cs => some cs
  | _ :: _, [] => none
  | p :: ps, c :: cs => if p == c then stripPfxChars ps cs else none

def stripPfx (p s : String) : Option String := (stripPfxChars p.data s.data).map String.mk

/-- `str::starts_with`. -/
def strStartsWith (s p : String) : Bool := (stripPfxChars p.data s.data).isSome

/-- `str::trim_end_matches` with pattern `/`. -/
def trimEndSlashes (s : String) : String :=
  String.mk ((s.data.reverse.dropWhile (fun c => c == '/')).reverse)

/-- `s.rsplit(sep).next().unwrap()`: the text after the last occurrence
of the separator, the whole string when the separator does not occur. -/
def lastSegAfter (sep : Char) (s : String) : String :=
  String.mk ((s.data.reverse.takeWhile (fun c => c != sep)).reverse)

/-! ### parse_xc_number (main.rs lines 46-69) -/

/-- `parse_xc_number`: plain decimal, then an exact `XC` or `xc` prefix,
then a URL that starts with the bare (no `www.`) host with an explicit
scheme.  Error message text simplified (no apostrophe). -/
def parse_xc_number (input : String) : Except String Nat :=
  let s := rustTrim input
  match parseU64 s with
  | some n => .ok n
  | none =>
    match stripPfx "XC" s with
    | some rest =>
      match parseU64 rest with
      | some n => .ok n
      | none => .error ("Invalid XC number: " ++ s)
    | none =>
      match stripPfx "xc" s with
      | some rest =>
        match parseU64 rest with
        | some n => .ok n
        | none => .error ("Invalid XC number: " ++ s)
      | none =>
        if strStartsWith s "http://xeno-canto.org/" || strStartsWith s "https://xeno-canto.org/" then
          match parseU64 (lastSegAfter '/' (trimEndSlashes s)) with
          | some n => .ok n
          | none => .error ("Cant parse XC number from: " ++ s)
        else .error ("Cant parse XC number from: " ++ s)

/-! ### Normalization and filename derivation (main.rs lines 166-214) -/

/-- `sanitize_filename` (main.rs lines 35-42). -/
def sanitize_filename (name : String) : String :=
  String.mk (name.data.map (fun c =>
    if c == '<' || c == '>' || c == ':' || c == '"' || c == '/' || c == '\\' ||
       c == '|' || c == '?' || c == '*' then '_' else c))

/-- `rec["k"].as_str().unwrap_or("")`, the pattern of main.rs lines 168-173. -/
def strField (r : Json) (k : String) : String := ((r.get k).asStr).getD ""

/-- The sanitized base filename of main.rs line 175. -/
def baseNameOf (r : Json) : String :=
  sanitize_filename ("XC" ++ strField r "id" ++ " - " ++ strField r "en" ++ " - " ++
    strField r "gen" ++ " " ++ strField r "sp")

/-- Audio extension (main.rs lines 178-181): the announced filename is
fed to `rsplit to the dot` whose first item is the text after the last dot
(the whole name when it has no dot); only a missing or non-string
`file-name` field falls back to `wav`. -/
def extOf (r : Json) : String :=
  match (r.get "file-name").asStr with
  | some name => lastSegAfter '.' name
  | none => "wav"

/-- The id echoed by the API takes precedence when it parses as a u64
(main.rs lines 193 and 264). -/
def authoritativeId (r : Json) (xcNumber : Nat) : Nat :=
  (((r.get "id").asStr).bind parseU64).getD xcNumber

/-- `None` serializes to `null`, `Some n` to the number (serde). -/
def jsonOfOptNat : Option Nat → Json
  | some n => Json.num n
  | none => Json.null

/-- The metadata document built by the `json!` block of main.rs
lines 191-214, with the fetch date passed in for `Utc::now`. -/
def normalizeRecord (r : Json) (xcNumber : Nat) (today : String) : Json :=
  let idStr := strField r "id"
  let attribution := strField r "rec" ++ ", XC" ++ idStr ++ ". Accessible at www.xeno-canto.org/" ++ idStr
  Json.obj [
    ("source", Json.str "xeno-canto"),
    ("xc_id", Json.num (authoritativeId r xcNumber)),
    ("url", Json.str ("https://www.xeno-canto.org/" ++ idStr)),
    ("file_url", r.get "file"),
    ("gen", Json.str (strField r "gen")),
    ("sp", Json.str (strField r "sp")),
    ("en", Json.str (strField r "en")),
    ("rec", Json.str (strField r "rec")),
    ("cnt", r.get "cnt"),
    ("loc", r.get "loc"),
    ("lat", r.get "lat"),
    ("lon", r.get "lon"),
    ("date", r.get "date"),
    ("time", r.get "time"),
    ("type", r.get "type"),
    ("q", r.get "q"),
    ("length", r.get "length"),
    ("smp", jsonOfOptNat (((r.get "smp").asStr).bind parseU64)),
    ("lic", Json.str (strField r "lic")),
    ("attribution", Json.str attribution),
    ("retrieved", Json.str today),
    ("raw_response", r) ]

/-! ### Index merging (main.rs lines 86-114) -/

inductive MergeOutcome where
  | inserted : MergeOutcome
  | alreadyPresent : MergeOutcome
deriving DecidableEq

/-- Result of one `update_index` call: the outcome, the (parsed) content
of the index file after the call, and whether the file was rewritten. -/
structure MergeResult where
  outcome : MergeOutcome
  state : Json
  wrote : Bool

/-- The row pushed onto `sounds` (main.rs lines 102-109). -/
def mkEntry (xc_id : Nat) (en genus sp audio_filename meta_filename : String) : Json :=
  Json.obj [
    ("filename", Json.str audio_filename),
    ("metadata", Json.str meta_filename),
    ("xc_id", Json.num xc_id),
    ("en", Json.str en),
    ("species", Json.str (genus ++ " " ++ sp)),
    ("source", Json.str "xeno-canto") ]

/-- `update_index` (main.rs lines 86-114).  The file argument is the
parsed content of index.json, `none` when the file is absent; the
`expect` panics of the Rust code become `Except.error`. -/
def update_index (file : Option Json) (xc_id : Nat)
    (en genus sp audio_filename meta_filename : String) : Except String MergeResult :=
  let index := file.getD (Json.obj [("version", Json.num 1), ("sounds", Json.arr [])])
  match (index.get "sounds").asArr with
  | none => .error "index.json sounds is not an array"
  | some sounds =>
    if sounds.any (fun s => (s.get "xc_id").asU64 == some xc_id) then
      .ok ⟨MergeOutcome.alreadyPresent, index, false⟩
    else
      .ok ⟨MergeOutcome.inserted,
        index.setKey "sounds"
          (Json.arr (sounds ++ [mkEntry xc_id en genus sp audio_filename meta_filename])),
        true⟩

/-- The state produced by a successful insertion: the entry appended at
the end of the existing `sounds` array, everything else untouched. -/
def insertEntry (idx : Json) (e : Json) : Json :=
  match (idx.get "sounds").asArr with
  | some l => idx.setKey "sounds" (Json.arr (l ++ [e]))
  | none => idx

/-- Number of index rows carrying the given xc_id. -/
def countXcId (idx : Json) (id : Nat) : Nat :=
  match (idx.get "sounds").asArr with
  | some l => (l.filter (fun s => (s.get "xc_id").asU64 == some id)).length
  | none => 0

/-! ### serde_json to_string_pretty -/

def hexDigitChar (n : Nat) : Char := if n < 10 then Char.ofNat (48 + n) else Char.ofNat (87 + n)

/-- JSON string escaping as performed by serde_json: the two mandatory
escapes, the short control escapes, `\u00xx` for the remaining control
characters, and everything else (including non-ASCII) verbatim. -/
def escapeJsonChar (c : Char) : List Char :=
  if c == '"' then ['\\', '"']
  else if c == '\\' then ['\\', '\\']
  else if c == Char.ofNat 8 then ['\\', 'b']
  else if c == Char.ofNat 9 then ['\\', 't']
  else if c == Char.ofNat 10 then ['\\', 'n']
  else if c == Char.ofNat 12 then ['\\', 'f']
  else if c == Char.ofNat 13 then ['\\', 'r']
  else if c.toNat < 32 then ['\\', 'u', '0', '0', hexDigitChar (c.toNat / 16), hexDigitChar (c.toNat % 16)]
  else [c]

def quoteJsonStr (s : String) : String :=
  String.mk ('"' :: (s.data.foldr (fun c acc => escapeJsonChar c ++ acc) ['"']))

/-- Newline plus the two-space-per-level indentation of the pretty printer. -/
def nlIndent (depth : Nat) : String := String.mk ('\n' :: List.replicate (2 * depth) ' ')

mutual

/-- `serde_json::to_string_pretty` (object keys in list order). -/
def ppJson : Nat → Json → String
  | _, .null => "null"
  | _, .bool b => if b then "true" else "false"
  | _, .num n => toString n
  | _, .str s => quoteJsonStr s
  | _, .arr [] => "[]"
  | d, .arr (x :: xs) =>
    "[" ++ nlIndent (d + 1) ++ ppJson (d + 1) x ++ ppItems (d + 1) xs ++ nlIndent d ++ "]"
  | _, .obj [] => String.mk [Char.ofNat 123, Char.ofNat 125]
  | d, .obj (f :: fs) =>
    String.mk [Char.ofNat 123] ++ nlIndent (d + 1) ++ quoteJsonStr f.1 ++ ": " ++
      ppJson (d + 1) f.2 ++ ppFields (d + 1) fs ++ nlIndent d ++ String.mk [Char.ofNat 125]

def ppItems : Nat → List Json → String
  | _, [] => ""
  | d, x :: xs => "," ++ nlIndent d ++ ppJson d x ++ ppItems d xs

def ppFields : Nat → List (String × Json) → String
  | _, [] => ""
  | d, f :: fs => "," ++ nlIndent d ++ quoteJsonStr f.1 ++ ": " ++ ppJson d f.2 ++ ppFields d fs

end

/-- Content of the index file after a merge call, given its content
before the call: rewritten (with trailing newline, main.rs line 112)
exactly when the merge wrote, untouched otherwise. -/
def fileContentAfter (prev : Option String) (mr : MergeResult) : Option String :=
  if mr.wrote then some (ppJson 0 mr.state ++ "\n") else prev

/-! ### The effectful tail of main (main.rs lines 150-266) -/

/-- One file write performed by the tool. -/
inductive FsWrite where
  | metaW : String → FsWrite
  | audioW : String → FsWrite
  | indexW : FsWrite
deriving DecidableEq

/-- Inputs of the tail of `main` that are fixed before the response body
is examined. -/
structure RunConfig where
  xcNumber : Nat
  metadataOnly : Bool
  noIndex : Bool
  indexFile : Option Json
  today : String
  audioOk : Bool

/-- Data of a successful invocation. -/
structure RunInfo where
  metaFilename : String
  audioFilename : String
  ext : String
  metadata : Json
  indexEntry : Option Json
  indexAfter : Option Json

instance : Inhabited RunInfo := ⟨⟨"", "", "", Json.null, none, none⟩⟩

/-- main.rs lines 150-166: reject a body carrying a top-level `error`
key, then an absent / non-array / empty `recordings` field; otherwise
take the first recording. -/
def firstRecording (body : Json) : Except String Json :=
  match body.getOpt "error" with
  | some _ => .error "API error"
  | none =>
    match (body.get "recordings").asArr with
    | none => .error "Expected recordings array in response"
    | some [] => .error "No recordings found"
    | some (r :: _) => .ok r

/-- main.rs lines 256-266: the optional index update, appended to the
writes already performed. -/
def indexStep (cfg : RunConfig) (r : Json) (writes : List FsWrite) :
    List FsWrite × Except String RunInfo :=
  let af := baseNameOf r ++ "." ++ extOf r
  let mf := baseNameOf r ++ ".xc.json"
  let info0 : RunInfo :=
    ⟨mf, af, extOf r, normalizeRecord r cfg.xcNumber cfg.today, none, none⟩
  if cfg.noIndex then (writes, .ok info0)
  else
    let xcid := authoritativeId r cfg.xcNumber
    match update_index cfg.indexFile xcid (strField r "en") (strField r "gen") (strField r "sp") af mf with
    | .error e => (writes, .error e)
    | .ok mr =>
      if mr.wrote then
        (writes ++ [FsWrite.indexW],
         .ok { info0 with
            indexEntry := some (mkEntry xcid (strField r "en") (strField r "gen") (strField r "sp") af mf),
            indexAfter := some mr.state })
      else (writes, .ok { info0 with indexAfter := some mr.state })

/-- main.rs lines 166-266 for one recording: metadata write, optional
audio download and write, optional index update, in that order.  An
`Except.error` is a `process::exit(1)` (or panic); the write list keeps
the files written before the abort. -/
def runRec (cfg : RunConfig) (r : Json) : List FsWrite × Except String RunInfo :=
  let mf := baseNameOf r ++ ".xc.json"
  let af := baseNameOf r ++ "." ++ extOf r
  if cfg.metadataOnly then
    indexStep cfg r [FsWrite.metaW mf]
  else
    match (r.get "file").asStr with
    | none => ([FsWrite.metaW mf], .error "No file URL in recording data")
    | some _ =>
      if cfg.audioOk then
        indexStep cfg r [FsWrite.metaW mf, FsWrite.audioW af]
      else ([FsWrite.metaW mf], .error "Failed to download audio")

/-- The tail of `main` from the parsed response body on (main.rs
lines 150-266). -/
def run (cfg : RunConfig) (body : Json) : List FsWrite × Except String RunInfo :=
  match firstRecording body with
  | .error e => ([], .error e)
  | .ok r => runRec cfg r

/-- The `RunInfo` of a successful run (default on failure). -/
def extractInfo (p : List FsWrite × Except String RunInfo) : RunInfo :=
  match p.2 with
  | .ok i => i
  | .error _ => default

/-! ### Lemmas about the index merger -/

theorem asArr_eq_some {j : Json} {l : List Json} (h : j.asArr = some l) : j = Json.arr l := by
  cases j <;> simp [Json.asArr] at h
  simp [h]

theorem findVal_setFields_self {fs : List (String × Json)} {k : String} {v w : Json}
    (h : findVal fs k = w) (hw : w ≠ Json.null) : findVal (setFields k v fs) k = v := by
  induction fs with
  | nil => simp [findVal] at h; exact absurd h.symm hw
  | cons f rest ih =>
    obtain ⟨k₀, v₀⟩ := f
    by_cases hk : k₀ == k
    · simp [findVal, setFields, hk]
    · simp only [findVal, setFields, hk, if_false, Bool.false_eq_true] at h ⊢
      exact ih h

theorem findVal_setFields_ne {fs : List (String × Json)} {k k₀ : String} {v : Json}
    (h : k₀ ≠ k) : findVal (setFields k v fs) k₀ = findVal fs k₀ := by
  induction fs with
  | nil => simp [setFields]
  | cons f rest ih =>
    obtain ⟨k₁, v₁⟩ := f
    by_cases hk : k₁ == k
    · have hne : (k₁ == k₀) = false := by
        simp only [beq_iff_eq] at hk
        simp [hk, beq_eq_false_iff_ne, Ne, h.symm]
      simp [setFields, hk, findVal, hne, ih]
    · simp [setFields, hk, findVal, ih]

theorem insertEntry_get {idx : Json} {sounds : List Json} {e : Json}
    (hs : (idx.get "sounds").asArr = some sounds) :
    (insertEntry idx e).get "sounds" = Json.arr (sounds ++ [e]) := by
  have harr : idx.get "sounds" = Json.arr sounds := asArr_eq_some hs
  cases idx with
  | obj fs =>
    simp only [Json.get] at harr
    simp only [insertEntry, Json.get, harr, Json.asArr, Json.setKey]
    exact findVal_setFields_self harr (by simp)
  | null => simp [Json.get] at harr
  | bool b => simp [Json.get] at harr
  | num n => simp [Json.get] at harr
  | str s => simp [Json.get] at harr
  | arr l => simp [Json.get] at harr

theorem insertEntry_get_ne {idx : Json} {sounds : List Json} {e : Json} {k : String}
    (hs : (idx.get "sounds").asArr = some sounds) (hk : k ≠ "sounds") :
    (insertEntry idx e).get k = idx.get k := by
  have harr : idx.get "sounds" = Json.arr sounds := asArr_eq_some hs
  cases idx with
  | obj fs =>
    simp only [Json.get] at harr
    simp only [insertEntry, Json.get, harr, Json.asArr, Json.setKey]
    exact findVal_setFields_ne hk
  | null => simp [Json.get] at harr
  | bool b => simp [Json.get] at harr
  | num n => simp [Json.get] at harr
  | str s => simp [Json.get] at harr
  | arr l => simp [Json.get] at harr

theorem update_index_insert {idx : Json} {sounds : List Json} {id : Nat}
    {en genus sp af mf : String}
    (hs : (idx.get "sounds").asArr = some sounds)
    (habs : sounds.any (fun s => (s.get "xc_id").asU64 == some id) = false) :
    update_index (some idx) id en genus sp af mf =
      .ok ⟨MergeOutcome.inserted, insertEntry idx (mkEntry id en genus sp af mf), true⟩ := by
  have harr : idx.get "sounds" = Json.arr sounds := asArr_eq_some hs
  simp only [update_index, Option.getD, hs, habs, Bool.false_eq_true, if_false,
    insertEntry, harr, Json.asArr]

theorem update_index_present {idx : Json} {sounds : List Json} {id : Nat}
    {en genus sp af mf : String}
    (hs : (idx.get "sounds").asArr = some sounds)
    (hany : sounds.any (fun s => (s.get "xc_id").asU64 == some id) = true) :
    update_index (some idx) id en genus sp af mf =
      .ok ⟨MergeOutcome.alreadyPresent, idx, false⟩ := by
  simp only [update_index, Option.getD, hs, hany, if_true]

theorem asU64_num_of_lt {id : Nat} (hid : id < 2 ^ 64) :
    (Json.num (id : Int)).asU64 = some id := by
  simp only [Json.asU64]
  rw [if_pos]
  · simp
  · exact ⟨Int.ofNat_nonneg id, by exact_mod_cast hid⟩

theorem mkEntry_xcid_matches {id : Nat} {en genus sp af mf : String} (hid : id < 2 ^ 64) :
    (((mkEntry id en genus sp af mf).get "xc_id").asU64 == some id) = true := by
  have h : (mkEntry id en genus sp af mf).get "xc_id" = Json.num (id : Int) := rfl
  rw [h, asU64_num_of_lt hid]
  simp

/-! ### Claim C1 -/

/-- C1: merging the same entry twice is idempotent.  Starting from any
parsed index whose `sounds` array does not yet carry the entry's xc_id,
the first `update_index` call returns `inserted` and rewrites the file
with the entry appended, the second call returns `alreadyPresent`
without writing, the file content after the second call equals the
content after the first, and exactly one row with that xc_id is present
afterwards. -/
theorem merge_idempotent (idx : Json) (id : Nat) (en genus sp af mf : String)
    (sounds : List Json)
    (hs : (idx.get "sounds").asArr = some sounds)
    (hid : id < 2 ^ 64)
    (habs : sounds.any (fun s => (s.get "xc_id").asU64 == some id) = false) :
    update_index (some idx) id en genus sp af mf =
      .ok ⟨MergeOutcome.inserted, insertEntry idx (mkEntry id en genus sp af mf), true⟩ ∧
    update_index (some (insertEntry idx (mkEntry id en genus sp af mf))) id en genus sp af mf =
      .ok ⟨MergeOutcome.alreadyPresent, insertEntry idx (mkEntry id en genus sp af mf), false⟩ ∧
    fileContentAfter
        (fileContentAfter none ⟨MergeOutcome.inserted, insertEntry idx (mkEntry id en genus sp af mf), true⟩)
        ⟨MergeOutcome.alreadyPresent, insertEntry idx (mkEntry id en genus sp af mf), false⟩ =
      fileContentAfter none ⟨MergeOutcome.inserted, insertEntry idx (mkEntry id en genus sp af mf), true⟩ ∧
    countXcId (insertEntry idx (mkEntry id en genus sp af mf)) id = 1 := by
  have hs₁ : ((insertEntry idx (mkEntry id en genus sp af mf)).get "sounds").asArr =
      some (sounds ++ [mkEntry id en genus sp af mf]) := by
    rw [insertEntry_get hs]; rfl
  have hany : (sounds ++ [mkEntry id en genus sp af mf]).any
      (fun s => (s.get "xc_id").asU64 == some id) = true := by
    rw [List.any_append]
    simp [mkEntry_xcid_matches hid]
  have hnil : sounds.filter (fun s => (s.get "xc_id").asU64 == some id) = [] := by
    rw [List.filter_eq_nil_iff]
    intro a ha
    have := List.any_eq_false.mp habs a ha
    simpa using this
  have hone : (sounds ++ [mkEntry id en genus sp af mf]).filter
      (fun s => (s.get "xc_id").asU64 == some id) = [mkEntry id en genus sp af mf] := by
    rw [List.filter_append, hnil, List.nil_append, List.filter_cons_of_pos]
    · rfl
    · exact mkEntry_xcid_matches hid
  have hcount : countXcId (insertEntry idx (mkEntry id en genus sp af mf)) id = 1 := by
    simp only [countXcId, hs₁, hone, List.length_cons, List.length_nil]
  have hcontent : fileContentAfter
        (fileContentAfter none ⟨MergeOutcome.inserted, insertEntry idx (mkEntry id en genus sp af mf), true⟩)
        ⟨MergeOutcome.alreadyPresent, insertEntry idx (mkEntry id en genus sp af mf), false⟩ =
      fileContentAfter none ⟨MergeOutcome.inserted, insertEntry idx (mkEntry id en genus sp af mf), true⟩ := by
    simp [fileContentAfter]
  exact ⟨update_index_insert hs habs, update_index_present hs₁ hany, hcontent, hcount⟩

def idxEmpty : Json := Json.obj [("version", Json.num 1), ("sounds", Json.arr [])]

def entryW : Json := mkEntry 5 "en" "g" "s" "a.mp3" "a.xc.json"

theorem merge_idempotent_witness :
    update_index (some idxEmpty) 5 "en" "g" "s" "a.mp3" "a.xc.json" =
      .ok ⟨MergeOutcome.inserted, insertEntry idxEmpty entryW, true⟩ ∧
    update_index (some (insertEntry idxEmpty entryW)) 5 "en" "g" "s" "a.mp3" "a.xc.json" =
      .ok ⟨MergeOutcome.alreadyPresent, insertEntry idxEmpty entryW, false⟩ ∧
    countXcId (insertEntry idxEmpty entryW) 5 = 1 :=
  have h := merge_idempotent idxEmpty 5 "en" "g" "s" "a.mp3" "a.xc.json" [] rfl (by decide) rfl
  ⟨h.1, h.2.1, h.2.2.2⟩

/-! ### Claim C8 -/

/-- C8: an inserting merge appends the new entry at the end of the
existing `sounds` sequence — every prior entry stays, in its original
relative order and unchanged — and every other top-level key of the
index document is untouched; nothing is truncated, sorted or
reordered. -/
theorem merge_appends (idx : Json) (id : Nat) (en genus sp af mf : String)
    (sounds : List Json)
    (hs : (idx.get "sounds").asArr = some sounds)
    (habs : sounds.any (fun s => (s.get "xc_id").asU64 == some id) = false) :
    update_index (some idx) id en genus sp af mf =
      .ok ⟨MergeOutcome.inserted, insertEntry idx (mkEntry id en genus sp af mf), true⟩ ∧
    (insertEntry idx (mkEntry id en genus sp af mf)).get "sounds" =
      Json.arr (sounds ++ [mkEntry id en genus sp af mf]) ∧
    (∀ k, k ≠ "sounds" → (insertEntry idx (mkEntry id en genus sp af mf)).get k = idx.get k) :=
  ⟨update_index_insert hs habs, insertEntry_get hs, fun _ hk => insertEntry_get_ne hs hk⟩

def idxOne : Json :=
  Json.obj [("version", Json.num 1), ("sounds", Json.arr [mkEntry 7 "p" "q" "r" "x.mp3" "x.xc.json"])]

theorem merge_appends_witness :
    update_index (some idxOne) 5 "en" "g" "s" "a.mp3" "a.xc.json" =
      .ok ⟨MergeOutcome.inserted, insertEntry idxOne entryW, true⟩ ∧
    (insertEntry idxOne entryW).get "sounds" =
      Json.arr ([mkEntry 7 "p" "q" "r" "x.mp3" "x.xc.json"] ++ [entryW]) ∧
    (insertEntry idxOne entryW).get "version" = idxOne.get "version" :=
  have h := merge_appends idxOne 5 "en" "g" "s" "a.mp3" "a.xc.json"
    [mkEntry 7 "p" "q" "r" "x.mp3" "x.xc.json"] rfl (by decide)
  ⟨h.1, h.2.1, h.2.2 "version" (by decide)⟩

/-! ### Claim C2 -/

/-- C2: evaluation of `parse_xc_number` on the accepted identifier
forms.  The plain, `XC`-prefixed and bare-host URL forms (with either
scheme, with or without a trailing slash) all yield 928094, but the
`www.`-subdomain URLs — listed as supported by the function's own doc
comment — and the scheme-less URL are rejected. -/
theorem url_parse_divergence :
    parse_xc_number "928094" = .ok 928094 ∧
    parse_xc_number "XC928094" = .ok 928094 ∧
    parse_xc_number "https://xeno-canto.org/928094" = .ok 928094 ∧
    parse_xc_number "http://xeno-canto.org/928094" = .ok 928094 ∧
    parse_xc_number "https://xeno-canto.org/928094/" = .ok 928094 ∧
    parse_xc_number "https://www.xeno-canto.org/928094" =
      .error "Cant parse XC number from: https://www.xeno-canto.org/928094" ∧
    parse_xc_number "https://www.xeno-canto.org/928094/" =
      .error "Cant parse XC number from: https://www.xeno-canto.org/928094/" ∧
    parse_xc_number "xeno-canto.org/928094" =
      .error "Cant parse XC number from: xeno-canto.org/928094" :=
  ⟨rfl, rfl, rfl, rfl, rfl, rfl, rfl, rfl⟩

/-! ### Claim C3 -/

/-- C3: when the parsed response body carries a top-level `error` key
the invocation aborts with no file write at all: no metadata file, no
audio file, no index update. -/
theorem api_error_aborts (cfg : RunConfig) (body : Json) (e : Json)
    (h : body.getOpt "error" = some e) :
    (run cfg body).1 = [] ∧ (run cfg body).2 = .error "API error" := by
  simp [run, firstRecording, h]

def cfgW : RunConfig := ⟨928094, true, false, none, "2026-10-12", true⟩

def errBody : Json := Json.obj [("error", Json.str "Invalid key")]

theorem api_error_aborts_witness :
    (run cfgW errBody).1 = [] ∧ (run cfgW errBody).2 = .error "API error" :=
  api_error_aborts cfgW errBody (Json.str "Invalid key") rfl

/-! ### Claim C5 -/

/-- C5: normalization is deterministic — two serializations of the
normalized document built from the same raw record, requested id and
fetch date are byte-identical. -/
theorem normalize_deterministic (r : Json) (xcn : Nat) (d : String) (out₁ out₂ : String)
    (h₁ : out₁ = ppJson 0 (normalizeRecord r xcn d) ++ "\n")
    (h₂ : out₂ = ppJson 0 (normalizeRecord r xcn d) ++ "\n") :
    out₁ = out₂ := h₁.trans h₂.symm

theorem normalize_deterministic_witness :
    ppJson 0 (normalizeRecord (Json.obj [("id", Json.str "5")]) 5 "2026-10-12") ++ "\n" =
      ppJson 0 (normalizeRecord (Json.obj [("id", Json.str "5")]) 5 "2026-10-12") ++ "\n" :=
  normalize_deterministic (Json.obj [("id", Json.str "5")]) 5 "2026-10-12" _ _ rfl rfl

/-! ### Claim C7 -/

/-- C7 counterexample: the input `0` parses successfully to the
catalogue id 0 — the code never enforces the non-zero half of the
claimed invariant. -/
theorem parse_zero_counterexample : parse_xc_number "0" = .ok 0 := rfl

theorem parseU64Chars_shape {cs : List Char} {n : Nat} (h : parseU64Chars cs = some n) :
    (stripPlus cs).all isAsciiDigit = true ∧ digitsVal (stripPlus cs) < 2 ^ 64 ∧
      n = digitsVal (stripPlus cs) := by
  simp only [parseU64Chars] at h
  split at h
  · simp at h
  · split at h
    · split at h
      · cases h
        refine ⟨by assumption, by assumption, rfl⟩
      · simp at h
    · simp at h

theorem parseU64_lt {s : String} {n : Nat} (h : parseU64 s = some n) : n < 2 ^ 64 := by
  obtain ⟨-, hlt, rfl⟩ := parseU64Chars_shape h
  exact hlt

/-- C7 amended: every successfully parsed catalogue id is representable
as an unsigned 64-bit integer; the non-zero part of the invariant is not
enforced (see the counterexample on input `0`). -/
theorem parse_xc_number_bound (s : String) (n : Nat) (h : parse_xc_number s = .ok n) :
    n < 2 ^ 64 := by
  simp only [parse_xc_number] at h
  split at h
  · exact parseU64_lt (by cases h; assumption)
  · split at h
    · split at h
      · exact parseU64_lt (by cases h; assumption)
      · simp at h
    · split at h
      · split at h
        · exact parseU64_lt (by cases h; assumption)
        · simp at h
      · split at h
        · split at h
          · exact parseU64_lt (by cases h; assumption)
          · simp at h
        · simp at h

theorem parse_xc_number_bound_witness :
    parse_xc_number "928094" = .ok 928094 ∧ 928094 < 2 ^ 64 :=
  ⟨rfl, parse_xc_number_bound "928094" 928094 rfl⟩

/-! ### Claim C9 -/

/-- C9 counterexample: an announced filename with no dot becomes the
extension itself — `audio` gives extension `audio`, not the claimed
fallback `wav`. -/
theorem ext_no_dot_counterexample :
    extOf (Json.obj [("file-name", Json.str "audio")]) = "audio" ∧
    extOf (Json.obj [("file-name", Json.str "audio")]) ≠ "wav" :=
  ⟨rfl, by decide⟩

theorem takeWhile_append_stop {p : Char → Bool} {l₁ : List Char} {d : Char} {l₂ : List Char}
    (h₁ : ∀ c ∈ l₁, p c = true) (h₂ : p d = false) :
    (l₁ ++ d :: l₂).takeWhile p = l₁ := by
  induction l₁ with
  | nil => simp [List.takeWhile_cons, h₂]
  | cons a l ih =>
    have ha := h₁ a (by simp)
    simp only [List.cons_append, List.takeWhile_cons, ha, if_true]
    rw [ih (fun c hc => h₁ c (by simp [hc]))]

theorem takeWhile_all {p : Char → Bool} {l : List Char}
    (h : ∀ c ∈ l, p c = true) : l.takeWhile p = l := by
  induction l with
  | nil => rfl
  | cons a t ih =>
    simp only [List.takeWhile_cons, h a (by simp), if_true]
    rw [ih (fun c hc => h c (by simp [hc]))]

theorem lastSegAfter_no_sep {sep : Char} {s : String}
    (h : ∀ c ∈ s.data, c ≠ sep) : lastSegAfter sep s = s := by
  unfold lastSegAfter
  rw [takeWhile_all (fun c hc => by
    simp only [bne_iff_ne, Ne]
    exact h c (List.mem_reverse.mp hc))]
  rw [List.reverse_reverse]

theorem lastSegAfter_split {sep : Char} {a b : String}
    (hb : ∀ c ∈ b.data, c ≠ sep) :
    lastSegAfter sep (a ++ String.mk [sep] ++ b) = b := by
  unfold lastSegAfter
  have hrev : (a ++ String.mk [sep] ++ b).data.reverse =
      b.data.reverse ++ sep :: a.data.reverse := by
    simp [String.data_append]
  rw [hrev, takeWhile_append_stop (fun c hc => by
      simp only [bne_iff_ne, Ne]
      exact hb c (List.mem_reverse.mp hc))
    (by simp)]
  rw [List.reverse_reverse]

/-- C9 amended: the extension is the text after the last dot of the
announced filename when it contains a dot, the whole announced filename
when it contains none, and the fallback `wav` only when the `file-name`
field is absent or not a string. -/
theorem ext_derivation (r : Json) (a b name : String)
    (hb : ∀ c ∈ b.data, c ≠ '.') (hname : ∀ c ∈ name.data, c ≠ '.') :
    ((r.get "file-name").asStr = none → extOf r = "wav") ∧
    ((r.get "file-name").asStr = some (a ++ String.mk ['.'] ++ b) → extOf r = b) ∧
    ((r.get "file-name").asStr = some name → extOf r = name) := by
  refine ⟨fun h => by simp [extOf, h], fun h => ?_, fun h => ?_⟩
  · simp only [extOf, h]
    exact lastSegAfter_split hb
  · simp only [extOf, h]
    exact lastSegAfter_no_sep hname

theorem ext_derivation_witness :
    extOf (Json.obj [("file-name", Json.str ("song" ++ String.mk ['.'] ++ "mp3"))]) = "mp3" ∧
    extOf (Json.obj []) = "wav" :=
  have h := ext_derivation (Json.obj [("file-name", Json.str ("song" ++ String.mk ['.'] ++ "mp3"))])
    "song" "mp3" "x" (by decide) (by decide)
  have h2 := ext_derivation (Json.obj []) "song" "mp3" "x" (by decide) (by decide)
  ⟨h.2.1 rfl, h2.1 rfl⟩

/-! ### Claim C6 -/

/-- C6 counterexample: the mixed casings `Xc` and `xC` are rejected —
only the exact spellings `XC` and `xc` are stripped. -/
theorem xc_mixed_case_counterexample :
    parse_xc_number "Xc928094" = .error "Cant parse XC number from: Xc928094" ∧
    parse_xc_number "xC928094" = .error "Cant parse XC number from: xC928094" :=
  ⟨rfl, rfl⟩

theorem dropWhile_all_false {p : Char → Bool} {l : List Char}
    (h : ∀ c ∈ l, p c = false) : l.dropWhile p = l := by
  cases l with
  | nil => rfl
  | cons a t => simp [List.dropWhile_cons, h a (by simp)]

theorem rustTrim_eq_self {s : String} (h : ∀ c ∈ s.data, rustIsWs c = false) :
    rustTrim s = s := by
  unfold rustTrim
  rw [dropWhile_all_false h,
    dropWhile_all_false (fun c hc => h c (List.mem_reverse.mp hc)),
    List.reverse_reverse]

theorem parseU64_mem {s : String} {n : Nat} (h : parseU64 s = some n) :
    ∀ c ∈ s.data, c = '+' ∨ isAsciiDigit c = true := by
  have hall := (parseU64Chars_shape (h : parseU64Chars s.data = some n)).1
  intro c hc
  cases hl : s.data with
  | nil => rw [hl] at hc; exact absurd hc (by simp)
  | cons a t =>
    rw [hl] at hc hall
    simp only [stripPlus] at hall
    by_cases ha : (a == '+') = true
    · rw [if_pos ha] at hall
      rcases List.mem_cons.mp hc with rfl | hct
      · exact Or.inl (beq_iff_eq.mp ha)
      · exact Or.inr (List.all_eq_true.mp hall c hct)
    · rw [if_neg ha] at hall
      exact Or.inr (List.all_eq_true.mp hall c hc)

theorem rustIsWs_false_of_digit {c : Char} (h : c = '+' ∨ isAsciiDigit c = true) :
    rustIsWs c = false := by
  rcases h with rfl | hd
  · decide
  · have hb : 48 ≤ c.toNat ∧ c.toNat ≤ 57 := by
      simpa [isAsciiDigit, Bool.and_eq_true, decide_eq_true_eq] using hd
    obtain ⟨h1, h2⟩ := hb
    simp only [rustIsWs, Bool.or_eq_false_iff, beq_eq_false_iff_ne, Ne]
    omega

theorem rustTrim_prefix2 (c₁ c₂ : Char) (s t : String)
    (hdata : t.data = c₁ :: c₂ :: s.data)
    (h₁ : rustIsWs c₁ = false) (h₂ : rustIsWs c₂ = false)
    (hws : ∀ c ∈ s.data, rustIsWs c = false) : rustTrim t = t :=
  rustTrim_eq_self (by
    rw [hdata]
    intro c hc
    rcases List.mem_cons.mp hc with rfl | hc2
    · exact h₁
    rcases List.mem_cons.mp hc2 with rfl | hc3
    · exact h₂
    · exact hws c hc3)

/-- C6 amended: the catalogue prefix is accepted exactly in the two
spellings `XC` and `xc` that the code strips; for every digit string the
prefixed forms with those spellings parse to its value, while the mixed
casings `Xc` and `xC` are rejected. -/
theorem xc_prefix_casing (s : String) (n : Nat) (hs : parseU64 s = some n) :
    parse_xc_number ("XC" ++ s) = .ok n ∧
    parse_xc_number ("xc" ++ s) = .ok n ∧
    parse_xc_number ("Xc" ++ s) = .error ("Cant parse XC number from: " ++ ("Xc" ++ s)) ∧
    parse_xc_number ("xC" ++ s) = .error ("Cant parse XC number from: " ++ ("xC" ++ s)) := by
  have hws : ∀ c ∈ s.data, rustIsWs c = false := fun c hc =>
    rustIsWs_false_of_digit (parseU64_mem hs c hc)
  have htrimXC : rustTrim ("XC" ++ s) = "XC" ++ s :=
    rustTrim_prefix2 'X' 'C' s _ (by simp [String.data_append]) (by decide) (by decide) hws
  have htrimxc : rustTrim ("xc" ++ s) = "xc" ++ s :=
    rustTrim_prefix2 'x' 'c' s _ (by simp [String.data_append]) (by decide) (by decide) hws
  have htrimXc : rustTrim ("Xc" ++ s) = "Xc" ++ s :=
    rustTrim_prefix2 'X' 'c' s _ (by simp [String.data_append]) (by decide) (by decide) hws
  have htrimxC : rustTrim ("xC" ++ s) = "xC" ++ s :=
    rustTrim_prefix2 'x' 'C' s _ (by simp [String.data_append]) (by decide) (by decide) hws
  refine ⟨?_, ?_, ?_, ?_⟩
  · have key : parse_xc_number ("XC" ++ s) =
        (match parseU64 s with
         | some m => Except.ok m
         | none => Except.error ("Invalid XC number: " ++ ("XC" ++ s))) := by
      simp only [parse_xc_number, htrimXC]
      rfl
    rw [key, hs]
  · have key : parse_xc_number ("xc" ++ s) =
        (match parseU64 s with
         | some m => Except.ok m
         | none => Except.error ("Invalid XC number: " ++ ("xc" ++ s))) := by
      simp only [parse_xc_number, htrimxc]
      rfl
    rw [key, hs]
  · simp only [parse_xc_number, htrimXc]
    rfl
  · simp only [parse_xc_number, htrimxC]
    rfl

theorem xc_prefix_casing_witness :
    parse_xc_number ("XC" ++ "928094") = .ok 928094 ∧
    parse_xc_number ("xc" ++ "928094") = .ok 928094 ∧
    parse_xc_number ("Xc" ++ "928094") =
      .error ("Cant parse XC number from: " ++ ("Xc" ++ "928094")) ∧
    parse_xc_number ("xC" ++ "928094") =
      .error ("Cant parse XC number from: " ++ ("xC" ++ "928094")) :=
  xc_prefix_casing "928094" 928094 rfl

/-! ### Inversion lemmas for successful runs -/

theorem indexStep_ok {cfg : RunConfig} {r : Json} {writes : List FsWrite} {info : RunInfo}
    (h : (indexStep cfg r writes).2 = .ok info) :
    info.metadata = normalizeRecord r cfg.xcNumber cfg.today ∧
    info.audioFilename = baseNameOf r ++ "." ++ extOf r ∧
    info.metaFilename = baseNameOf r ++ ".xc.json" ∧
    info.ext = extOf r ∧
    (∀ entry, info.indexEntry = some entry →
      entry = mkEntry (authoritativeId r cfg.xcNumber) (strField r "en") (strField r "gen")
        (strField r "sp") (baseNameOf r ++ "." ++ extOf r) (baseNameOf r ++ ".xc.json")) := by
  simp only [indexStep] at h
  split at h
  · injection h with h2
    subst h2
    exact ⟨rfl, rfl, rfl, rfl, fun e he => by simp at he⟩
  · split at h
    · simp at h
    · split at h
      · injection h with h2
        subst h2
        exact ⟨rfl, rfl, rfl, rfl, fun e he => by
          simp only [Option.some.injEq] at he
          exact he.symm⟩
      · injection h with h2
        subst h2
        exact ⟨rfl, rfl, rfl, rfl, fun e he => by simp at he⟩

theorem runRec_ok {cfg : RunConfig} {r : Json} {info : RunInfo}
    (h : (runRec cfg r).2 = .ok info) :
    info.metadata = normalizeRecord r cfg.xcNumber cfg.today ∧
    info.audioFilename = baseNameOf r ++ "." ++ extOf r ∧
    info.metaFilename = baseNameOf r ++ ".xc.json" ∧
    info.ext = extOf r ∧
    (∀ entry, info.indexEntry = some entry →
      entry = mkEntry (authoritativeId r cfg.xcNumber) (strField r "en") (strField r "gen")
        (strField r "sp") (baseNameOf r ++ "." ++ extOf r) (baseNameOf r ++ ".xc.json")) := by
  simp only [runRec] at h
  split at h
  · exact indexStep_ok h
  · split at h
    · simp at h
    · split at h
      · exact indexStep_ok h
      · simp at h

theorem run_ok {cfg : RunConfig} {body r : Json} {rs : List Json} {info : RunInfo}
    (hbody : body.getOpt "error" = none)
    (hrec : (body.get "recordings").asArr = some (r :: rs))
    (h : (run cfg body).2 = .ok info) :
    info.metadata = normalizeRecord r cfg.xcNumber cfg.today ∧
    info.audioFilename = baseNameOf r ++ "." ++ extOf r ∧
    info.metaFilename = baseNameOf r ++ ".xc.json" ∧
    info.ext = extOf r ∧
    (∀ entry, info.indexEntry = some entry →
      entry = mkEntry (authoritativeId r cfg.xcNumber) (strField r "en") (strField r "gen")
        (strField r "sp") (baseNameOf r ++ "." ++ extOf r) (baseNameOf r ++ ".xc.json")) := by
  have hfr : firstRecording body = .ok r := by simp [firstRecording, hbody, hrec]
  rw [run, hfr] at h
  exact runRec_ok h

/-! ### Claim C4 -/

def numIdBody : Json := Json.obj [("recordings", Json.arr [Json.obj [("id", Json.num 5)]])]

def cfgN : RunConfig := ⟨7, true, true, none, "2026-10-12", true⟩

def strIdBody : Json := Json.obj [("recordings", Json.arr [Json.obj [("id", Json.str "5")]])]

/-- C4 counterexample: a raw record whose `id` field is present as the
JSON number 5 — a value of u64 — is ignored: the stored xc_id is the
requested catalogue number 7, not 5, because the code only consults the
field through `as_str`. -/
theorem xcid_numeric_counterexample :
    (numIdBody.get "recordings").asArr = some [Json.obj [("id", Json.num 5)]] ∧
    (Json.obj [("id", Json.num 5)]).getOpt "id" = some (Json.num 5) ∧
    (Json.num 5).asU64 = some 5 ∧
    (extractInfo (run cfgN numIdBody)).metadata.get "xc_id" = Json.num 7 ∧
    (7 : Int) ≠ 5 :=
  ⟨rfl, rfl, rfl, rfl, by decide⟩

/-- C4 amended: the stored xc_id (in the metadata document and in the
index entry) is the value of the raw record's `id` field whenever that
field is present as a JSON string that parses as a u64, and the
originally requested catalogue number otherwise (in particular also when
the `id` field is present but not a string). -/
theorem xcid_precedence (cfg : RunConfig) (body r : Json) (rs : List Json) (info : RunInfo)
    (s : String) (n : Nat)
    (hbody : body.getOpt "error" = none)
    (hrec : (body.get "recordings").asArr = some (r :: rs))
    (hrun : (run cfg body).2 = .ok info) :
    info.metadata.get "xc_id" = Json.num (authoritativeId r cfg.xcNumber) ∧
    ((r.get "id").asStr = some s → parseU64 s = some n →
      authoritativeId r cfg.xcNumber = n) ∧
    ((r.get "id").asStr.bind parseU64 = none →
      authoritativeId r cfg.xcNumber = cfg.xcNumber) ∧
    (∀ entry, info.indexEntry = some entry →
      entry.get "xc_id" = Json.num (authoritativeId r cfg.xcNumber)) := by
  obtain ⟨hmeta, -, -, -, hent⟩ := run_ok hbody hrec hrun
  refine ⟨?_, ?_, ?_, ?_⟩
  · rw [hmeta]; rfl
  · intro h1 h2; simp [authoritativeId, h1, h2]
  · intro h1; simp [authoritativeId, h1]
  · intro e he
    rw [hent e he]
    rfl

theorem xcid_precedence_witness :
    (extractInfo (run cfgN strIdBody)).metadata.get "xc_id" = Json.num 5 := by
  have h := xcid_precedence cfgN strIdBody (Json.obj [("id", Json.str "5")]) []
    (extractInfo (run cfgN strIdBody)) "5" 5 rfl rfl rfl
  rw [h.1, h.2.1 rfl rfl]
  rfl

/-! ### Claim C10 -/

theorem indexStep_writes (cfg : RunConfig) (r : Json) (ws : List FsWrite) :
    (indexStep cfg r ws).1 = ws ∨ (indexStep cfg r ws).1 = ws ++ [FsWrite.indexW] := by
  simp only [indexStep]
  split
  · exact Or.inl rfl
  · split
    · exact Or.inl rfl
    · split
      · exact Or.inr rfl
      · exact Or.inl rfl

theorem update_index_fresh (x : Nat) (en genus sp af mf : String) :
    update_index none x en genus sp af mf =
      .ok ⟨MergeOutcome.inserted,
        Json.obj [("version", Json.num 1), ("sounds", Json.arr [mkEntry x en genus sp af mf])],
        true⟩ := rfl

/-- C10: in metadata-only mode the appended index entry still names the
derived audio filename `base.ext` in its `filename` field, although no
audio write is performed in the whole run — the index records an audio
path that the invocation never creates. -/
theorem metadata_only_entry (cfg : RunConfig) (body r : Json) (rs : List Json) (info : RunInfo)
    (hmo : cfg.metadataOnly = true)
    (hbody : body.getOpt "error" = none)
    (hrec : (body.get "recordings").asArr = some (r :: rs))
    (hrun : (run cfg body).2 = .ok info) :
    (∀ entry, info.indexEntry = some entry →
      entry.get "filename" = Json.str info.audioFilename) ∧
    info.audioFilename = baseNameOf r ++ "." ++ extOf r ∧
    (cfg.indexFile = none → cfg.noIndex = false → info.indexEntry.isSome = true) ∧
    (run cfg body).1.all
      (fun w => match w with | FsWrite.audioW _ => false | _ => true) = true := by
  have hfr : firstRecording body = .ok r := by simp [firstRecording, hbody, hrec]
  have hrun2 : (runRec cfg r).2 = .ok info := by
    rw [run, hfr] at hrun; exact hrun
  obtain ⟨-, haf, -, -, hent⟩ := runRec_ok hrun2
  refine ⟨fun e he => ?_, haf, fun hif hni => ?_, ?_⟩
  · rw [hent e he, haf]
    rfl
  · simp only [runRec, hmo, if_true] at hrun2
    simp only [indexStep, hni, hif, Bool.false_eq_true, if_false, update_index_fresh] at hrun2
    injection hrun2 with h2
    subst h2
    rfl
  · have hwr : (run cfg body).1 = (runRec cfg r).1 := by rw [run, hfr]
    rw [hwr]
    simp only [runRec, hmo, if_true]
    rcases indexStep_writes cfg r [FsWrite.metaW (baseNameOf r ++ ".xc.json")] with h | h <;>
      rw [h] <;> rfl

def c10Body : Json :=
  Json.obj [("recordings", Json.arr [Json.obj
    [("id", Json.str "11"), ("en", Json.str "Wren"), ("file-name", Json.str "xc11.mp3")]])]

theorem metadata_only_entry_witness :
    (extractInfo (run cfgW c10Body)).indexEntry.isSome = true ∧
    (run cfgW c10Body).1.all
      (fun w => match w with | FsWrite.audioW _ => false | _ => true) = true := by
  have h := metadata_only_entry cfgW c10Body
    (Json.obj [("id", Json.str "11"), ("en", Json.str "Wren"), ("file-name", Json.str "xc11.mp3")])
    [] (extractInfo (run cfgW c10Body)) rfl rfl rfl rfl
  exact ⟨h.2.2.1 rfl rfl, h.2.2.2⟩
